import Mathlib

/-!
# kaniko `pkg/snapshot/fsnotifier.go`: a shallow embedding

The file embeds `FsNotifier`, `watchFile`, `InitNotifier` and `Start` of
`pkg/snapshot/fsnotifier.go` as pure Lean functions with explicit state passing.

Everything the Go code asks of its surroundings is an explicit input:

* the answer of `fsnotify.NewWatcher()`,
* the answer `watcher.Add(path)` gives at the moment it is called,
* the answer of `os.Stat(filePath)`,
* `util.CheckWhitelist`,
* the entries `godirwalk.Walk` visits,
* what the `select` of `Start` receives on each iteration.

The watcher value keeps a record of the `Add` calls made on it, so that statements
about "which paths were handed to AddWatch" can be written down.
-/

namespace Snapshot

/-- A Go `string`, as its sequence of characters.  The only text the code looks for is
`"//"`, whose character `/` is a single byte that occurs inside no longer encoding, so
searching by character and searching by byte find the same places. -/
abbrev Path := List Char

/-- A Go `error` value (only its presence matters to this code). -/
abbrev Error := String

/-! ## `fsnotify.Op` -/

/-- The type `fsnotify.Op` is a `uint32` used as a set of bits. -/
abbrev Op := Nat

namespace fsnotify

/-- The constant `Create Op = 1 << iota` with `iota = 0`. -/
def Create : Op := 1
/-- The constant `Write`: bit 1. -/
def Write : Op := 2
/-- The constant `Remove`: bit 2. -/
def Remove : Op := 4
/-- The constant `Rename`: bit 3. -/
def Rename : Op := 8
/-- The constant `Chmod`: bit 4. -/
def Chmod : Op := 16

/-- An `fsnotify.Event`: `Name string; Op Op`. -/
structure Event where
  Name : Path
  Op : Op
deriving DecidableEq, Repr

/-- The watcher, seen from this package: the record of the `Add` calls made on it so far,
oldest first, each with the answer it got (`none` is a nil error). -/
structure Watcher where
  addLog : List (Path × Option Error)
deriving DecidableEq, Repr

/-- A call `watcher.Add(path)` that is answered by `answer`: the call is recorded and the
answer handed back. -/
def Watcher.Add (w : Watcher) (path : Path) (answer : Option Error) : Watcher × Option Error :=
  ({ addLog := w.addLog ++ [(path, answer)] }, answer)

/-- The paths `Add` was called with, in call order. -/
def Watcher.addCalls (w : Watcher) : List Path :=
  w.addLog.map Prod.fst

/-- The paths for which a call of `Add` returned a nil error, in call order. -/
def Watcher.added (w : Watcher) : List Path :=
  (w.addLog.filter (fun c => c.2.isNone)).map Prod.fst

end fsnotify

/-! ## The two `strings` functions `Start` uses -/

namespace strings

/-- Go `strings.HasPrefix(s, prefix)`: `len(s) >= len(prefix) && s[:len(prefix)] == prefix`. -/
def HasPrefix (s pre : Path) : Bool :=
  decide (pre.length ≤ s.length) && decide (s.take pre.length = pre)

/-- Go `strings.Index(s, substr)`: the index of the first occurrence of `substr` in `s`,
`none` for Go's `-1`. -/
def Index : Path → Path → Option Nat
  | [], sub => if sub = [] then some 0 else none
  | c :: cs, sub =>
    if HasPrefix (c :: cs) sub then some 0 else (Index cs sub).map (· + 1)

/-- Go `strings.Replace(s, old, new, n)` for a non-empty `old` and `n ≥ 0`: the first `n`
non-overlapping occurrences of `old`, from the left, are replaced by `new`.  Each round
of Go's loop writes `s[start:j]`, then `new`, and goes on from `j + len(old)`. -/
def Replace (old new : Path) : Nat → Path → Path
  | 0, s => s
  | n + 1, s =>
    if old = new then s
    else
      match Index s old with
      | none => s
      | some j => s.take j ++ new ++ Replace old new n (s.drop (j + old.length))

end strings

/-! ## The map type of `eventsLog` -/

/-- A Go `map[string][]fsnotify.Op`: a key is present when the value is `some`. -/
abbrev OpsMap := Path → Option (List Op)

/-- The call `make(map[string][]fsnotify.Op)`: no key. -/
def OpsMap.make : OpsMap := fun _ => none

/-- Go `m[k]` as an expression: the zero value (the nil slice) when `k` is absent. -/
def OpsMap.index (m : OpsMap) (k : Path) : List Op :=
  (m k).getD []

/-- Go `m[k] = v`. -/
def OpsMap.assign (m : OpsMap) (k : Path) (v : List Op) : OpsMap :=
  fun k' => if k' = k then some v else m k'

/-- Whether `k` is a key of the map. -/
def OpsMap.hasKey (m : OpsMap) (k : Path) : Bool :=
  (m k).isSome

/-! ## `FsNotifier` -/

/-- The struct `FsNotifier`.  `watchCount` is a Go `int` that starts at zero and is only ever
incremented, by one per successful `Add`; the `2^63` successful calls that would wrap it
are out of reach of any run, and it is kept here as a natural number. -/
structure FsNotifier where
  watcher : fsnotify.Watcher
  watchCount : Nat
  eventsLog : OpsMap
  rootDir : Path

/-- The method `func (f *FsNotifier) EventsLog()`. -/
def FsNotifier.EventsLog (f : FsNotifier) : OpsMap :=
  f.eventsLog

/-- The method `func (f *FsNotifier) watchFile(path string) error`; `addAnswer` is what
`f.watcher.Add(path)` answers. -/
def FsNotifier.watchFile (f : FsNotifier) (path : Path) (addAnswer : Option Error) :
    FsNotifier × Option Error :=
  match f.watcher.Add path addAnswer with
  | (w, some err) => ({ f with watcher := w }, some err)
  | (w, none) => ({ f with watcher := w, watchCount := f.watchCount + 1 }, none)

/-! ## `InitNotifier` -/

/-- One entry the directory walk comes to: its path, and what `watcher.Add` answers if it is
called for this entry. -/
structure Visit where
  path : Path
  addAnswer : Option Error
deriving DecidableEq, Repr

/-- Modelled from the spec: `godirwalk.Walk` is a library function that is not under src/.
Per §4.1 and §7 of the spec the walk calls the callback once on every entry it comes to,
and a callback that returns an error aborts the remainder of the walk, that error being
the walk's result.  `visits` lists the entries in the order the walk comes to them. -/
def Walk {σ : Type} (callback : σ → Visit → σ × Option Error) : σ → List Visit → σ × Option Error
  | s, [] => (s, none)
  | s, v :: rest =>
    match callback s v with
    | (s', some err) => (s', some err)
    | (s', none) => Walk callback s' rest

/-- The `Callback` closure of `InitNotifier`. -/
def InitNotifier.callback (CheckWhitelist : Path → Bool) (fn : FsNotifier) (v : Visit) :
    FsNotifier × Option Error :=
  if CheckWhitelist v.path then (fn, none)
  else fn.watchFile v.path v.addAnswer

/-- The function `func InitNotifier(rootDir string) (*FsNotifier, error)`.

* `newWatcherErr` is the error of `fsnotify.NewWatcher()` (`none` is nil),
* `CheckWhitelist` is `util.CheckWhitelist`,
* `visits` are the entries `godirwalk.Walk(rootDir, ...)` comes to.

The result of `godirwalk.Walk` is discarded, as in the source. -/
def InitNotifier (rootDir : Path) (newWatcherErr : Option Error) (CheckWhitelist : Path → Bool)
    (visits : List Visit) : Option FsNotifier × Option Error :=
  match newWatcherErr with
  | some err => (none, some err)
  | none =>
    let fn : FsNotifier :=
      { watcher := { addLog := [] }, watchCount := 0, eventsLog := OpsMap.make, rootDir := rootDir }
    (some (Walk (InitNotifier.callback CheckWhitelist) fn visits).1, none)

/-! ## `Start` -/

/-- What one round of the `select` in `Start` receives. -/
inductive Input where
  /-- The case `<-done`. -/
  | done
  /-- The case `event, ok := <-fs.watcher.Events` with `ok` true.  `stat` is the answer of
  `os.Stat(filePath)`, an error or `IsDir()`; `addAnswer` the answer of `watcher.Add`. -/
  | event (event : fsnotify.Event) (stat : Except Error Bool) (addAnswer : Option Error)
  /-- The case `event, ok := <-fs.watcher.Events` with `ok` false. -/
  | eventsClosed
  /-- The case `err, ok := <-fs.watcher.Errors` with `ok` true. -/
  | error (err : Error)
  /-- The case `err, ok := <-fs.watcher.Errors` with `ok` false. -/
  | errorsClosed

/-- Lines 83-89 of `Start`: the path under which an event is logged. -/
def normalize (name : Path) : Path :=
  if strings.HasPrefix name ['/', '/'] then strings.Replace ['/', '/'] ['/'] 1 name
  else name

/-- The body of the `for` loop of `Start`, once.  The flag is true when the body executes
`return`. -/
def Start.iteration (fs : FsNotifier) : Input → FsNotifier × Bool
  | .done => (fs, true)
  | .eventsClosed => (fs, true)
  | .event event stat addAnswer =>
    let filePath := normalize event.Name
    let fs1 : FsNotifier :=
      { fs with eventsLog := fs.eventsLog.assign filePath (fs.eventsLog.index filePath ++ [event.Op]) }
    if event.Op = fsnotify.Create then
      match stat with
      | .error _ => (fs1, false)
      | .ok isDir =>
        if isDir then ((fs1.watchFile filePath addAnswer).1, false)
        else (fs1, false)
    else (fs1, false)
  | .errorsClosed => (fs, true)
  | .error _ => (fs, false)

/-- The function `func Start(fs *FsNotifier, done chan bool)` run on the inputs its `select` receives, in
order.  The flag is true when `Start` has returned, false when the inputs are used up and
the loop is waiting in `select`. -/
def Start (fs : FsNotifier) : List Input → FsNotifier × Bool
  | [] => (fs, false)
  | i :: rest =>
    match Start.iteration fs i with
    | (fs', true) => (fs', true)
    | (fs', false) => Start fs' rest


/-! ## Notions the statements are written in -/

/-- Whether `Start` returns on this input: cancellation, or one of the two streams closed. -/
def Input.stops : Input → Bool
  | .done => true
  | .eventsClosed => true
  | .errorsClosed => true
  | .event _ _ _ => false
  | .error _ => false

/-- The events `Start` consumes out of a list of inputs, in order: the events received
before the first input on which the loop returns. -/
def consumed : List Input → List fsnotify.Event
  | [] => []
  | .event e _ _ :: rest => e :: consumed rest
  | .error _ :: rest => consumed rest
  | .done :: _ => []
  | .eventsClosed :: _ => []
  | .errorsClosed :: _ => []

/-- The ops of the events whose normalized path is `p`, in the order of the list. -/
def opsAt (p : Path) (events : List fsnotify.Event) : List Op :=
  (events.filter (fun e => decide (normalize e.Name = p))).map (fun e => e.Op)

/-- The entries of a walk on which the exclusion predicate is false. -/
def notExcluded (CheckWhitelist : Path → Bool) (visits : List Visit) : List Visit :=
  visits.filter (fun v => !CheckWhitelist v.path)

/-- An event with nothing to stat and nothing to add: the answers are not consulted. -/
def plainEvent (name : String) (op : Op) : Input :=
  .event { Name := name.toList, Op := op } (.error "not consulted") none

/-- An event for a path at which `os.Stat` finds a directory and `watcher.Add` succeeds. -/
def dirEvent (name : String) (op : Op) : Input :=
  .event { Name := name.toList, Op := op } (.ok true) none

/-- The notifier `InitNotifier` hands back for a tree in which the walk comes to nothing. -/
def emptyNotifier : FsNotifier :=
  { watcher := { addLog := [] }, watchCount := 0, eventsLog := OpsMap.make, rootDir := ['/'] }

/-- The exclusion predicate of the examples: everything under `/var/run`. -/
def underVarRun (p : Path) : Bool :=
  strings.HasPrefix p "/var/run".toList

/-- A run in which the directory `/d` is created, removed and created again. -/
def recreateRun : List Input :=
  [dirEvent "/d" fsnotify.Create, plainEvent "/d" fsnotify.Remove, dirEvent "/d" fsnotify.Create]

/-- A walk over three entries, the second of them excluded by `underVarRun`. -/
def threeVisits : List Visit :=
  [{ path := "/var".toList, addAnswer := none },
   { path := "/var/run".toList, addAnswer := none },
   { path := "/etc".toList, addAnswer := none }]

/-- The counter of a notifier agrees with the record of its watcher. -/
def Counted (f : FsNotifier) : Prop :=
  f.watchCount = f.watcher.added.length

/-! ## Path normalization -/

theorem hasPrefix_slashes (p : Path) :
    strings.HasPrefix p ['/', '/'] = true ↔ ∃ rest, p = '/' :: '/' :: rest := by
  match p with
  | [] => simp [strings.HasPrefix]
  | [c] => simp [strings.HasPrefix]
  | c :: d :: rest =>
    simp [strings.HasPrefix]

theorem normalize_slashes (rest : Path) : normalize ('/' :: '/' :: rest) = '/' :: rest := by
  have h : strings.HasPrefix ('/' :: '/' :: rest) ['/', '/'] = true :=
    (hasPrefix_slashes _).2 ⟨rest, rfl⟩
  simp [normalize, h, strings.Replace, strings.Index]

theorem normalize_other (p : Path) (h : ∀ rest, p ≠ '/' :: '/' :: rest) : normalize p = p := by
  have h' : strings.HasPrefix p ['/', '/'] = false := by
    cases hp : strings.HasPrefix p ['/', '/'] with
    | false => rfl
    | true =>
      obtain ⟨rest, hr⟩ := (hasPrefix_slashes p).1 hp
      exact absurd hr (h rest)
  simp [normalize, h']

/-- C2: a path that begins with the doubled separator `//` is normalized to the same path
with that leading `//` replaced by one `/`, the rest unchanged; a path that does not begin
with `//` is normalized to itself, wherever else `//` occurs in it. -/
theorem normalize_leading_double (p : Path) :
    (∀ rest : Path, p = '/' :: '/' :: rest → normalize p = '/' :: rest) ∧
    ((∀ rest : Path, p ≠ '/' :: '/' :: rest) → normalize p = p) := by
  refine ⟨?_, normalize_other p⟩
  intro rest h
  rw [h]
  exact normalize_slashes rest

/-- C2, on the two paths of the claim: `//tmp/a` becomes `/tmp/a`, `/tmp//a` stays. -/
theorem normalize_leading_double_witness :
    normalize "//tmp/a".toList = "/tmp/a".toList ∧
    normalize "/tmp//a".toList = "/tmp//a".toList :=
  ⟨(normalize_leading_double "//tmp/a".toList).1 "tmp/a".toList rfl,
   (normalize_leading_double "/tmp//a".toList).2 (by intro rest h; simp at h)⟩

/-- C3, as stated, fails: `///a` begins with three separators and is altered, to `//a`. -/
theorem normalize_three_slashes_altered :
    normalize "///a".toList = "//a".toList ∧ normalize "///a".toList ≠ "///a".toList := by
  decide

/-- C3, amended: normalization alters a path exactly when the path begins with two
consecutive separators, whether or not more separators follow; a path that begins with
three or more loses one leading separator, and every path that does not begin with two
consecutive separators is returned as it is. -/
theorem normalize_alters_iff (p : Path) :
    (normalize p ≠ p ↔ ∃ rest : Path, p = '/' :: '/' :: rest) ∧
    (∀ rest : Path, normalize ('/' :: '/' :: '/' :: rest) = '/' :: '/' :: rest) := by
  refine ⟨⟨?_, ?_⟩, fun rest => normalize_slashes _⟩
  · intro h
    by_contra hne
    exact h (normalize_other p (fun rest hr => hne ⟨rest, hr⟩))
  · rintro ⟨rest, rfl⟩
    rw [normalize_slashes]
    intro h
    have := congrArg List.length h
    simp at this

/-! ## `watchFile` -/

theorem watchFile_eventsLog (f : FsNotifier) (path : Path) (a : Option Error) :
    (f.watchFile path a).1.eventsLog = f.eventsLog := by
  cases a <;> rfl

theorem watchFile_addLog (f : FsNotifier) (path : Path) (a : Option Error) :
    (f.watchFile path a).1.watcher.addLog = f.watcher.addLog ++ [(path, a)] := by
  cases a <;> rfl

theorem watchFile_count_ok (f : FsNotifier) (path : Path) :
    (f.watchFile path none).1.watchCount = f.watchCount + 1 := rfl

theorem watchFile_count_err (f : FsNotifier) (path : Path) (err : Error) :
    (f.watchFile path (some err)).1.watchCount = f.watchCount := rfl

theorem watchFile_result (f : FsNotifier) (path : Path) (a : Option Error) :
    (f.watchFile path a).2 = a := by
  cases a <;> rfl

theorem watchFile_counted (f : FsNotifier) (path : Path) (a : Option Error) (h : Counted f) :
    Counted (f.watchFile path a).1 := by
  unfold Counted at *
  cases a with
  | none =>
    rw [watchFile_count_ok]
    simp [fsnotify.Watcher.added, watchFile_addLog, h]
  | some err =>
    rw [watchFile_count_err]
    simp [fsnotify.Watcher.added, watchFile_addLog, h]

/-! ## One round of `Start` -/

theorem iteration_event_flag (fs : FsNotifier) (e : fsnotify.Event) (st : Except Error Bool)
    (a : Option Error) : (Start.iteration fs (.event e st a)).2 = false := by
  unfold Start.iteration
  dsimp only
  split
  · split
    · rfl
    · split <;> rfl
  · rfl

theorem iteration_event_eventsLog (fs : FsNotifier) (e : fsnotify.Event)
    (st : Except Error Bool) (a : Option Error) :
    (Start.iteration fs (.event e st a)).1.eventsLog =
      fs.eventsLog.assign (normalize e.Name) (fs.eventsLog.index (normalize e.Name) ++ [e.Op]) := by
  unfold Start.iteration
  dsimp only
  split
  · split
    · rfl
    · split
      · rw [watchFile_eventsLog]
      · rfl
  · rfl

theorem iteration_flag (fs : FsNotifier) (i : Input) :
    (Start.iteration fs i).2 = i.stops := by
  cases i with
  | event e st a => exact iteration_event_flag fs e st a
  | done => rfl
  | eventsClosed => rfl
  | error err => rfl
  | errorsClosed => rfl

theorem iteration_of_stops (fs : FsNotifier) (i : Input) (h : i.stops = true) :
    Start.iteration fs i = (fs, true) := by
  cases i with
  | event e st a => simp [Input.stops] at h
  | done => rfl
  | eventsClosed => rfl
  | error err => simp [Input.stops] at h
  | errorsClosed => rfl

theorem Start_cons (fs : FsNotifier) (i : Input) (rest : List Input) :
    Start fs (i :: rest) =
      if i.stops then (fs, true) else Start (Start.iteration fs i).1 rest := by
  have hflag := iteration_flag fs i
  cases hs : i.stops with
  | true =>
    simp only [Start, iteration_of_stops fs i hs, if_true]
  | false =>
    rw [hs] at hflag
    have : Start.iteration fs i = ((Start.iteration fs i).1, false) := by
      rw [← hflag]
    simp only [Start]
    rw [this]
    simp

/-! ## The event log over a run of `Start` -/

theorem opsAt_cons (p : Path) (e : fsnotify.Event) (es : List fsnotify.Event) :
    opsAt p (e :: es) = if normalize e.Name = p then e.Op :: opsAt p es else opsAt p es := by
  unfold opsAt
  by_cases h : normalize e.Name = p <;> simp [List.filter_cons, h]

theorem opsAt_eq_nil (p : Path) (es : List fsnotify.Event) :
    opsAt p es = [] ↔ ¬ ∃ e ∈ es, normalize e.Name = p := by
  simp [opsAt, List.filter_eq_nil_iff]

theorem Start_eventsLog (ins : List Input) (fs : FsNotifier) (p : Path) :
    (Start fs ins).1.eventsLog p =
      if opsAt p (consumed ins) = [] then fs.eventsLog p
      else some (fs.eventsLog.index p ++ opsAt p (consumed ins)) := by
  induction ins generalizing fs with
  | nil => simp [Start, consumed, opsAt]
  | cons i rest ih =>
    rw [Start_cons]
    cases i with
    | done => simp [Input.stops, consumed, opsAt]
    | eventsClosed => simp [Input.stops, consumed, opsAt]
    | errorsClosed => simp [Input.stops, consumed, opsAt]
    | error err =>
      simp only [Input.stops, consumed, Bool.false_eq_true, if_false]
      exact ih _
    | event e st a =>
      simp only [Input.stops, consumed, Bool.false_eq_true, if_false]
      rw [ih, opsAt_cons]
      simp only [OpsMap.index, iteration_event_eventsLog, OpsMap.assign]
      by_cases hp : normalize e.Name = p
      · subst hp
        by_cases hr : opsAt (normalize e.Name) (consumed rest) = [] <;> simp [hr]
      · have hp' : ¬ p = normalize e.Name := fun h => hp h.symm
        simp [hp, hp']

theorem Start_flag (ins : List Input) (fs : FsNotifier) :
    (Start fs ins).2 = ins.any Input.stops := by
  induction ins generalizing fs with
  | nil => rfl
  | cons i rest ih =>
    rw [Start_cons]
    cases hs : i.stops <;> simp [hs, ih]

/-! ## The walk of `InitNotifier` -/

theorem callback_eventsLog (cw : Path → Bool) (fn : FsNotifier) (v : Visit) :
    (InitNotifier.callback cw fn v).1.eventsLog = fn.eventsLog := by
  unfold InitNotifier.callback
  split
  · rfl
  · exact watchFile_eventsLog _ _ _

theorem callback_counted (cw : Path → Bool) (fn : FsNotifier) (v : Visit) (h : Counted fn) :
    Counted (InitNotifier.callback cw fn v).1 := by
  unfold InitNotifier.callback
  split
  · exact h
  · exact watchFile_counted _ _ _ h

theorem Walk_cons {σ : Type} (cb : σ → Visit → σ × Option Error) (s : σ) (v : Visit)
    (rest : List Visit) :
    Walk cb s (v :: rest) =
      match (cb s v).2 with
      | some err => ((cb s v).1, some err)
      | none => Walk cb (cb s v).1 rest := by
  rw [Walk]
  rcases hcb : cb s v with ⟨s1, _ | err⟩ <;> rfl

theorem Walk_eventsLog (cw : Path → Bool) (visits : List Visit) (fn : FsNotifier) :
    (Walk (InitNotifier.callback cw) fn visits).1.eventsLog = fn.eventsLog := by
  induction visits generalizing fn with
  | nil => rfl
  | cons v rest ih =>
    rw [Walk_cons]
    split
    · exact callback_eventsLog cw fn v
    · rw [ih, callback_eventsLog]

theorem Walk_counted (cw : Path → Bool) (visits : List Visit) (fn : FsNotifier)
    (h : Counted fn) : Counted (Walk (InitNotifier.callback cw) fn visits).1 := by
  induction visits generalizing fn with
  | nil => exact h
  | cons v rest ih =>
    rw [Walk_cons]
    split
    · exact callback_counted cw fn v h
    · exact ih _ (callback_counted cw fn v h)

theorem InitNotifier_some (rootDir : Path) (cw : Path → Bool) (visits : List Visit)
    (fn : FsNotifier) (h : (InitNotifier rootDir none cw visits).1 = some fn) :
    fn = (Walk (InitNotifier.callback cw)
      { watcher := { addLog := [] }, watchCount := 0, eventsLog := OpsMap.make,
        rootDir := rootDir } visits).1 := by
  simp only [InitNotifier, Option.some.injEq] at h
  exact h.symm

/-- C1: run `Start` on any finite list of inputs, from the notifier `InitNotifier` hands
back.  Then `p` is a key of `EventsLog()` exactly when some consumed event has normalized
path `p`, and `EventsLog()[p]` is the list of the ops of the consumed events whose
normalized path is `p`, in the order they were consumed. -/
theorem eventsLog_records_consumed (rootDir : Path) (cw : Path → Bool) (visits : List Visit)
    (fn : FsNotifier) (hinit : (InitNotifier rootDir none cw visits).1 = some fn)
    (ins : List Input) (p : Path) :
    ((Start fn ins).1.EventsLog.hasKey p = true ↔ ∃ e ∈ consumed ins, normalize e.Name = p) ∧
    (Start fn ins).1.EventsLog.index p = opsAt p (consumed ins) := by
  have hlog : fn.eventsLog = OpsMap.make := by
    rw [InitNotifier_some rootDir cw visits fn hinit, Walk_eventsLog]
  have key := Start_eventsLog ins fn p
  rw [hlog] at key
  simp only [FsNotifier.EventsLog, OpsMap.hasKey, OpsMap.index]
  by_cases hr : opsAt p (consumed ins) = []
  · have hn := (opsAt_eq_nil p (consumed ins)).1 hr
    rw [key]
    simp [hr, OpsMap.make, hn]
  · have hn : ∃ e ∈ consumed ins, normalize e.Name = p := by
      by_contra hc
      exact hr ((opsAt_eq_nil p (consumed ins)).2 hc)
    rw [key]
    simp [hr, OpsMap.make, OpsMap.index, hn]

/-- C1, on the run of the claim: the events `(/a, Write), (/a, Write), (/a, Remove)` give
`EventsLog()["/a"] = [Write, Write, Remove]`. -/
theorem eventsLog_records_consumed_witness :
    (InitNotifier ['/'] none (fun _ => false) []).1 = some emptyNotifier ∧
    (Start emptyNotifier
        [plainEvent "/a" fsnotify.Write, plainEvent "/a" fsnotify.Write,
         plainEvent "/a" fsnotify.Remove]).1.EventsLog.index "/a".toList =
      [fsnotify.Write, fsnotify.Write, fsnotify.Remove] :=
  ⟨rfl, by
    rw [(eventsLog_records_consumed ['/'] (fun _ => false) [] emptyNotifier rfl _ _).2]
    decide⟩

/-! ## The walk when every `Add` succeeds, and when one fails -/

theorem callback_excluded (cw : Path → Bool) (fn : FsNotifier) (v : Visit)
    (h : cw v.path = true) : InitNotifier.callback cw fn v = (fn, none) := by
  simp [InitNotifier.callback, h]

theorem callback_watch (cw : Path → Bool) (fn : FsNotifier) (v : Visit)
    (h : cw v.path = false) :
    InitNotifier.callback cw fn v = fn.watchFile v.path v.addAnswer := by
  simp [InitNotifier.callback, h]

theorem notExcluded_cons (cw : Path → Bool) (v : Visit) (rest : List Visit) :
    notExcluded cw (v :: rest) =
      if cw v.path then notExcluded cw rest else v :: notExcluded cw rest := by
  unfold notExcluded
  cases h : cw v.path <;> simp [List.filter_cons, h]

theorem Walk_all_ok (cw : Path → Bool) (visits : List Visit) (fn : FsNotifier)
    (hok : ∀ v ∈ visits, cw v.path = false → v.addAnswer = none) :
    (Walk (InitNotifier.callback cw) fn visits).2 = none ∧
    (Walk (InitNotifier.callback cw) fn visits).1.watcher.addLog =
      fn.watcher.addLog ++ (notExcluded cw visits).map (fun v => (v.path, none)) ∧
    (Walk (InitNotifier.callback cw) fn visits).1.watchCount =
      fn.watchCount + (notExcluded cw visits).length := by
  induction visits generalizing fn with
  | nil => simp [Walk, notExcluded]
  | cons v rest ih =>
    have hrest : ∀ u ∈ rest, cw u.path = false → u.addAnswer = none :=
      fun u hu => hok u (List.mem_cons_of_mem v hu)
    rw [Walk_cons, notExcluded_cons]
    cases hv : cw v.path with
    | true =>
      rw [callback_excluded cw fn v hv]
      simpa using ih fn hrest
    | false =>
      have ha : v.addAnswer = none := hok v (List.mem_cons_self v rest) hv
      rw [callback_watch cw fn v hv, ha]
      have hres : (fn.watchFile v.path none).2 = none := rfl
      simp only [hres, Bool.false_eq_true, if_false]
      obtain ⟨h1, h2, h3⟩ := ih (fn.watchFile v.path none).1 hrest
      refine ⟨h1, ?_, ?_⟩
      · rw [h2, watchFile_addLog]
        simp
      · rw [h3, watchFile_count_ok]
        simp
        omega

theorem Walk_abort (cw : Path → Bool) (pre : List Visit) (v : Visit) (post : List Visit)
    (err : Error) (fn : FsNotifier)
    (hpre : ∀ u ∈ pre, cw u.path = false → u.addAnswer = none)
    (hv : cw v.path = false) (herr : v.addAnswer = some err) :
    Walk (InitNotifier.callback cw) fn (pre ++ v :: post) =
      (((Walk (InitNotifier.callback cw) fn pre).1.watchFile v.path (some err)).1, some err) := by
  induction pre generalizing fn with
  | nil =>
    simp only [List.nil_append, Walk_cons, callback_watch cw fn v hv, herr]
    rfl
  | cons u rest ih =>
    have hrest : ∀ w ∈ rest, cw w.path = false → w.addAnswer = none :=
      fun w hw => hpre w (List.mem_cons_of_mem u hw)
    rw [List.cons_append, Walk_cons, Walk_cons]
    cases hu : cw u.path with
    | true =>
      rw [callback_excluded cw fn u hu]
      exact ih fn hrest
    | false =>
      have ha : u.addAnswer = none := hpre u (List.mem_cons_self u rest) hu
      rw [callback_watch cw fn u hu, ha]
      have hres : (fn.watchFile u.path none).2 = none := rfl
      simp only [hres]
      exact ih _ hrest

theorem count_notExcluded (cw : Path → Bool) (visits : List Visit) (p : Path) :
    ((notExcluded cw visits).map Visit.path).count p =
      if cw p then 0 else (visits.map Visit.path).count p := by
  induction visits with
  | nil => simp [notExcluded]
  | cons v rest ih =>
    rw [notExcluded_cons]
    cases hv : cw v.path with
    | true =>
      simp only [if_true, ih, List.map_cons, List.count_cons]
      by_cases hp : v.path = p
      · subst hp
        simp [hv]
      · simp [hp]
    | false =>
      simp only [Bool.false_eq_true, if_false, List.map_cons, List.count_cons, ih]
      by_cases hp : v.path = p
      · subst hp
        simp [hv]
      · simp [hp]

theorem notExcluded_perm (cw : Path → Bool) (a b : List Visit) (h : a.Perm b) :
    (notExcluded cw a).Perm (notExcluded cw b) :=
  List.Perm.filter _ h

theorem InitNotifier_none (rootDir : Path) (cw : Path → Bool) (visits : List Visit) :
    InitNotifier rootDir none cw visits =
      (some (Walk (InitNotifier.callback cw)
        { watcher := { addLog := [] }, watchCount := 0, eventsLog := OpsMap.make,
          rootDir := rootDir } visits).1, none) := rfl

/-- C4: when every `AddWatch` the walk makes succeeds, `InitNotifier` hands back a notifier
whose `watchCount` is the number of visited entries on which the exclusion predicate is
false, and `AddWatch` has been called on exactly those entries, once per visit.  The count
is the same for every order in which the walk comes to the entries. -/
theorem init_watches_every_included (rootDir : Path) (cw : Path → Bool) (visits : List Visit)
    (hok : ∀ v ∈ visits, cw v.path = false → v.addAnswer = none) :
    ∃ fn, InitNotifier rootDir none cw visits = (some fn, none) ∧
      fn.watchCount = (notExcluded cw visits).length ∧
      fn.watcher.addCalls = (notExcluded cw visits).map Visit.path ∧
      (∀ p, fn.watcher.addCalls.count p =
        if cw p then 0 else (visits.map Visit.path).count p) ∧
      (∀ visits2 fn2, visits2.Perm visits →
        InitNotifier rootDir none cw visits2 = (some fn2, none) →
        fn2.watchCount = fn.watchCount ∧ fn2.watcher.addCalls.Perm fn.watcher.addCalls) := by
  refine ⟨_, InitNotifier_none rootDir cw visits, ?_⟩
  obtain ⟨-, hlog, hcount⟩ := Walk_all_ok cw visits
    { watcher := { addLog := [] }, watchCount := 0, eventsLog := OpsMap.make,
      rootDir := rootDir } hok
  have hcalls : (Walk (InitNotifier.callback cw)
      { watcher := { addLog := [] }, watchCount := 0, eventsLog := OpsMap.make,
        rootDir := rootDir } visits).1.watcher.addCalls =
      (notExcluded cw visits).map Visit.path := by
    simp [fsnotify.Watcher.addCalls, hlog, Function.comp_def]
  refine ⟨by simpa using hcount, hcalls, ?_, ?_⟩
  · intro p
    rw [hcalls, count_notExcluded]
  · intro visits2 fn2 hperm h2
    have hok2 : ∀ v ∈ visits2, cw v.path = false → v.addAnswer = none :=
      fun v hv => hok v (hperm.mem_iff.1 hv)
    obtain ⟨-, hlog2, hcount2⟩ := Walk_all_ok cw visits2
      { watcher := { addLog := [] }, watchCount := 0, eventsLog := OpsMap.make,
        rootDir := rootDir } hok2
    rw [InitNotifier_none] at h2
    have hfn2 : fn2 = (Walk (InitNotifier.callback cw)
      { watcher := { addLog := [] }, watchCount := 0, eventsLog := OpsMap.make,
        rootDir := rootDir } visits2).1 := by
      injection h2 with h2a _
      injection h2a with h2b
      exact h2b.symm
    have hcalls2 : fn2.watcher.addCalls = (notExcluded cw visits2).map Visit.path := by
      rw [hfn2]
      simp [fsnotify.Watcher.addCalls, hlog2, Function.comp_def]
    refine ⟨?_, ?_⟩
    · rw [hfn2, hcount2, hcount]
      simp only [Nat.zero_add]
      exact (notExcluded_perm cw _ _ hperm).length_eq
    · rw [hcalls2, hcalls]
      exact (notExcluded_perm cw _ _ hperm).map _

/-- C4, on a walk over `/var`, `/var/run` (excluded) and `/etc`: two watches, on `/var` and
on `/etc`. -/
theorem init_watches_every_included_witness :
    (∀ v ∈ threeVisits, underVarRun v.path = false → v.addAnswer = none) ∧
    ∃ fn, InitNotifier ['/'] none underVarRun threeVisits = (some fn, none) ∧
      fn.watchCount = 2 ∧ fn.watcher.addCalls = ["/var".toList, "/etc".toList] := by
  have hok : ∀ v ∈ threeVisits, underVarRun v.path = false → v.addAnswer = none := by decide
  refine ⟨hok, ?_⟩
  obtain ⟨fn, hfn, hc, ha, -⟩ := init_watches_every_included ['/'] underVarRun threeVisits hok
  refine ⟨fn, hfn, ?_, ?_⟩
  · rw [hc]
    decide
  · rw [ha]
    decide

/-- C10: when `AddWatch` fails on an entry of the walk on which the exclusion predicate is
false, all earlier such entries having succeeded, the walk stops there: `InitNotifier`
hands back a notifier, and no error, whose `watchCount` is the number of non-excluded
entries before the failing one, and `AddWatch` has been called on those entries and on the
failing one, and on no entry after it. -/
theorem init_walk_stops_at_first_failure (rootDir : Path) (cw : Path → Bool)
    (pre : List Visit) (v : Visit) (post : List Visit) (err : Error)
    (hpre : ∀ u ∈ pre, cw u.path = false → u.addAnswer = none)
    (hv : cw v.path = false) (herr : v.addAnswer = some err) :
    ∃ fn, InitNotifier rootDir none cw (pre ++ v :: post) = (some fn, none) ∧
      fn.watchCount = (notExcluded cw pre).length ∧
      fn.watcher.addCalls = (notExcluded cw pre).map Visit.path ++ [v.path] ∧
      fn.watcher.added = (notExcluded cw pre).map Visit.path := by
  refine ⟨_, InitNotifier_none rootDir cw (pre ++ v :: post), ?_⟩
  rw [Walk_abort cw pre v post err _ hpre hv herr]
  obtain ⟨-, hlog, hcount⟩ := Walk_all_ok cw pre
    { watcher := { addLog := [] }, watchCount := 0, eventsLog := OpsMap.make,
      rootDir := rootDir } hpre
  refine ⟨?_, ?_, ?_⟩
  · rw [watchFile_count_err, hcount]
    simp
  · simp [fsnotify.Watcher.addCalls, watchFile_addLog, hlog, Function.comp_def]
  · simp [fsnotify.Watcher.added, watchFile_addLog, hlog, List.filter_map, Function.comp_def]

/-- C10, on a walk over `/a`, `/b`, `/c` in which `AddWatch` fails on `/b`: one watch is
counted, and `/c` is never handed to `AddWatch`. -/
theorem init_walk_stops_at_first_failure_witness :
    ∃ fn, InitNotifier ['/'] none (fun _ => false)
        ([{ path := "/a".toList, addAnswer := none }] ++
          { path := "/b".toList, addAnswer := some "no space left on device" } ::
          [{ path := "/c".toList, addAnswer := none }]) = (some fn, none) ∧
      fn.watchCount = 1 ∧ fn.watcher.addCalls = ["/a".toList, "/b".toList] := by
  obtain ⟨fn, hfn, hc, ha, -⟩ := init_walk_stops_at_first_failure ['/'] (fun _ => false)
    [{ path := "/a".toList, addAnswer := none }]
    { path := "/b".toList, addAnswer := some "no space left on device" }
    [{ path := "/c".toList, addAnswer := none }] "no space left on device"
    (by intro u _ _; simp_all) rfl rfl
  exact ⟨fn, hfn, by rw [hc]; rfl, by rw [ha]; rfl⟩

/-- C7: `InitNotifier` returns an error exactly when `fsnotify.NewWatcher()` returns one,
and then returns that error and no notifier; in every other case, whatever the walk
comes to and whatever `AddWatch` answers, it returns a notifier and a nil error. -/
theorem init_error_iff_new_watcher_fails (rootDir : Path) (newWatcherErr : Option Error)
    (cw : Path → Bool) (visits : List Visit) :
    ((InitNotifier rootDir newWatcherErr cw visits).2.isSome = true ↔
      newWatcherErr.isSome = true) ∧
    (∀ err, InitNotifier rootDir (some err) cw visits = (none, some err)) ∧
    (∃ fn, InitNotifier rootDir none cw visits = (some fn, none)) := by
  refine ⟨?_, fun err => rfl, ⟨_, InitNotifier_none rootDir cw visits⟩⟩
  cases newWatcherErr with
  | none => simp [InitNotifier]
  | some err => simp [InitNotifier]

/-- C8: one round of the loop of `Start` returns exactly when it receives the cancellation
or finds one of the two streams closed.  An error from the error stream, an event whose
`os.Stat` fails, and an event whose `AddWatch` fails leave the loop running; so `Start`
has returned after a list of inputs exactly when one of them is of the three kinds. -/
theorem start_returns_iff (fs : FsNotifier) (i : Input) :
    ((Start.iteration fs i).2 = true ↔
      i = Input.done ∨ i = Input.eventsClosed ∨ i = Input.errorsClosed) ∧
    (∀ err, (Start.iteration fs (Input.error err)).2 = false) ∧
    (∀ e err a, (Start.iteration fs (Input.event e (Except.error err) a)).2 = false) ∧
    (∀ e err, (Start.iteration fs (Input.event e (Except.ok true) (some err))).2 = false) ∧
    (∀ ins, (Start fs ins).2 = true ↔
      ∃ j ∈ ins, j = Input.done ∨ j = Input.eventsClosed ∨ j = Input.errorsClosed) := by
  have hstops : ∀ j : Input, j.stops = true ↔
      j = Input.done ∨ j = Input.eventsClosed ∨ j = Input.errorsClosed := by
    intro j
    cases j <;> simp [Input.stops]
  refine ⟨?_, fun err => rfl, fun e err a => iteration_event_flag fs e _ a,
    fun e err => iteration_event_flag fs e _ _, ?_⟩
  · rw [iteration_flag]
    exact hstops i
  · intro ins
    rw [Start_flag, List.any_eq_true]
    constructor
    · rintro ⟨j, hj, hs⟩
      exact ⟨j, hj, (hstops j).1 hs⟩
    · rintro ⟨j, hj, hs⟩
      exact ⟨j, hj, (hstops j).2 hs⟩

/-! ## The counter over a run -/

theorem counted_of_same (f g : FsNotifier) (hw : g.watcher = f.watcher)
    (hc : g.watchCount = f.watchCount) (h : Counted f) : Counted g := by
  unfold Counted at *
  rw [hw, hc, h]

theorem iteration_counted (fs : FsNotifier) (i : Input) (h : Counted fs) :
    Counted (Start.iteration fs i).1 := by
  cases i with
  | done => exact h
  | eventsClosed => exact h
  | errorsClosed => exact h
  | error err => exact h
  | event e st a =>
    unfold Start.iteration
    dsimp only
    split
    · split
      · exact counted_of_same fs _ rfl rfl h
      · split
        · exact watchFile_counted _ _ _ (counted_of_same fs _ rfl rfl h)
        · exact counted_of_same fs _ rfl rfl h
    · exact counted_of_same fs _ rfl rfl h

theorem Start_counted (ins : List Input) (fs : FsNotifier) (h : Counted fs) :
    Counted (Start fs ins).1 := by
  induction ins generalizing fs with
  | nil => exact h
  | cons i rest ih =>
    rw [Start_cons]
    cases hs : i.stops with
    | true => simpa using h
    | false => simpa using ih _ (iteration_counted fs i h)

/-- C9, as stated, fails: after the directory `/d` is created, removed and created again,
`AddWatch` has succeeded on one distinct path and `watchCount` is two. -/
theorem watchCount_counts_recreated_twice :
    InitNotifier ['/'] none (fun _ => false) [] = (some emptyNotifier, none) ∧
    (Start emptyNotifier recreateRun).1.watcher.added = ["/d".toList, "/d".toList] ∧
    (Start emptyNotifier recreateRun).1.watcher.added.dedup.length = 1 ∧
    (Start emptyNotifier recreateRun).1.watchCount = 2 ∧
    (Start emptyNotifier recreateRun).1.watchCount ≠
      (Start emptyNotifier recreateRun).1.watcher.added.dedup.length := by
  refine ⟨rfl, ?_, ?_, ?_, ?_⟩ <;> decide

/-- C9, amended: at every point of every run, `watchCount` is the number of `AddWatch` calls
that have succeeded since `InitNotifier` began, those made on Create events included, each
successful call counted; it is the number of distinct paths so added exactly when no path
has been added with success more than once. -/
theorem watchCount_counts_successful_adds (rootDir : Path) (cw : Path → Bool)
    (visits : List Visit) (ins : List Input) :
    ∃ fn, InitNotifier rootDir none cw visits = (some fn, none) ∧
      (Start fn ins).1.watchCount = (Start fn ins).1.watcher.added.length ∧
      ((Start fn ins).1.watchCount = (Start fn ins).1.watcher.added.dedup.length ↔
        (Start fn ins).1.watcher.added.Nodup) := by
  refine ⟨_, InitNotifier_none rootDir cw visits, ?_⟩
  have h := Start_counted ins _ (Walk_counted cw visits
    { watcher := { addLog := [] }, watchCount := 0, eventsLog := OpsMap.make,
      rootDir := rootDir } rfl)
  unfold Counted at h
  refine ⟨h, ?_⟩
  rw [h]
  constructor
  · intro hlen
    have hsub := List.dedup_sublist (Start (Walk (InitNotifier.callback cw)
      { watcher := { addLog := [] }, watchCount := 0, eventsLog := OpsMap.make,
        rootDir := rootDir } visits).1 ins).1.watcher.added
    have heq := hsub.eq_of_length hlen.symm
    exact List.dedup_eq_self.1 heq
  · intro hnd
    rw [List.dedup_eq_self.2 hnd]

/-- C5, evaluated where the code breaks it: `/var/run` is excluded and is skipped by the walk
of `InitNotifier`, but when it is reported by a Create event and is a directory, `Start`
hands it to `AddWatch` and counts it. -/
theorem start_watches_excluded_directory :
    underVarRun "/var/run".toList = true ∧
    (∃ fn, InitNotifier ['/'] none underVarRun threeVisits = (some fn, none) ∧
      fn.watcher.addCalls = ["/var".toList, "/etc".toList] ∧
      (Start fn [dirEvent "/var/run" fsnotify.Create]).1.watcher.addCalls =
        ["/var".toList, "/etc".toList, "/var/run".toList] ∧
      (Start fn [dirEvent "/var/run" fsnotify.Create]).1.watchCount = 3) := by
  refine ⟨by decide, _, InitNotifier_none ['/'] underVarRun threeVisits, ?_, ?_, ?_⟩ <;> decide

/-- C6, evaluated where the code breaks it: an event whose op is `Create|Write` includes
Create, its path is a directory, and the round of `Start` that consumes it logs the op but
calls `AddWatch` on nothing and leaves `watchCount` as it was; with op `Create` alone the
same event has the path handed to `AddWatch` and counted. -/
theorem start_ignores_composite_create (fs : FsNotifier) :
    (fsnotify.Create ||| fsnotify.Write) &&& fsnotify.Create = fsnotify.Create ∧
    (Start.iteration fs (dirEvent "/d" (fsnotify.Create ||| fsnotify.Write))).1.watcher =
      fs.watcher ∧
    (Start.iteration fs (dirEvent "/d" (fsnotify.Create ||| fsnotify.Write))).1.watchCount =
      fs.watchCount ∧
    (Start.iteration fs (dirEvent "/d" fsnotify.Create)).1.watcher.addCalls =
      fs.watcher.addCalls ++ ["/d".toList] ∧
    (Start.iteration fs (dirEvent "/d" fsnotify.Create)).1.watchCount = fs.watchCount + 1 := by
  refine ⟨by decide, rfl, rfl, ?_, rfl⟩
  simp [Start.iteration, dirEvent, fsnotify.Watcher.addCalls, watchFile_addLog, fsnotify.Create]
  decide

end Snapshot
